import Mathlib

/-!
# Verification of the remote vane tester telemetry core

Shallow embedding of the telemetry-ingestion engine of the repository:
the wire-protocol decoder, the baseline-tracking value deriver, the
sliding telemetry window, the session logger and the connection
lifecycle, as implemented in `src/receiverApp/index.tsx` (two app
variants), `src/unnamed/part_000` (scan-list variant) and
`src/unnamed/part_001` (graph/logging variant).

JavaScript numbers are modelled as exact rationals plus an explicit
`NaN` value (`JSVal`); strings are Lean `String`s, manipulated through
their underlying `List Char`.
-/

/-- A JavaScript number: either an actual (finite) numeric value, modelled
as an exact rational, or `NaN` (the result of a failed `parseFloat`). -/
inductive JSVal where
  | num (q : ℚ)
  | nan
deriving DecidableEq

namespace JSVal

/-- JavaScript subtraction: any operation involving `NaN` yields `NaN`. -/
def sub : JSVal → JSVal → JSVal
  | num a, num b => num (a - b)
  | _, _ => nan

/-- JavaScript `isNaN`. -/
def isNaN : JSVal → Bool
  | num _ => false
  | nan => true

end JSVal

/-! ## Generic character-level string splitting

`splitOnChar sep` models JavaScript `String.prototype.split(sep)` for a
single-character separator: `"".split(',') = ['']`, separators delimit
(possibly empty) fields. -/

/-- JavaScript `s.split(sep)` for a one-character separator, on the
character list of the string. The result is always non-empty. -/
def splitOnChar (sep : Char) : List Char → List (List Char)
  | [] => [[]]
  | c :: cs =>
    if c = sep then [] :: splitOnChar sep cs
    else (c :: (splitOnChar sep cs).headD []) :: (splitOnChar sep cs).tail

theorem splitOnChar_ne_nil (sep : Char) (cs : List Char) : splitOnChar sep cs ≠ [] := by
  cases cs with
  | nil => simp [splitOnChar]
  | cons c cs =>
    by_cases h : c = sep
    · simp [splitOnChar, h]
    · simp [splitOnChar, h]

/-- Splitting a separator-free list yields a single field. -/
theorem splitOnChar_of_not_mem (sep : Char) (cs : List Char) (h : sep ∉ cs) :
    splitOnChar sep cs = [cs] := by
  induction cs with
  | nil => rfl
  | cons c cs ih =>
    have hc : ¬ c = sep := fun hcc => h (hcc ▸ List.mem_cons_self c cs)
    have hrest : sep ∉ cs := fun hm => h (List.mem_cons_of_mem _ hm)
    simp only [splitOnChar, if_neg hc, ih hrest, List.headD_cons, List.tail_cons]

/-- Peeling the first separator off a split. -/
theorem splitOnChar_append (sep : Char) (a b : List Char) (ha : sep ∉ a) :
    splitOnChar sep (a ++ sep :: b) = a :: splitOnChar sep b := by
  induction a with
  | nil => simp [splitOnChar]
  | cons c a ih =>
    have hc : ¬ c = sep := fun hcc => ha (hcc ▸ List.mem_cons_self c a)
    have hrest : sep ∉ a := fun hm => ha (List.mem_cons_of_mem _ hm)
    simp only [List.cons_append, splitOnChar, if_neg hc, List.append_eq, ih hrest,
      List.headD_cons, List.tail_cons]

/-- A single-field split means the separator does not occur. -/
theorem splitOnChar_eq_single (sep : Char) (cs b : List Char)
    (h : splitOnChar sep cs = [b]) : cs = b ∧ sep ∉ b := by
  induction cs generalizing b with
  | nil =>
    simp only [splitOnChar] at h
    have hb : b = [] := by
      have := (List.cons.injEq _ _ _ _).mp h
      exact this.1.symm
    subst hb
    exact ⟨rfl, by simp⟩
  | cons c cs ih =>
    by_cases hc : c = sep
    · subst hc
      simp only [splitOnChar, if_pos rfl] at h
      have h2 : splitOnChar c cs = [] := ((List.cons.injEq _ _ _ _).mp h).2
      exact absurd h2 (splitOnChar_ne_nil c cs)
    · simp only [splitOnChar, if_neg hc] at h
      cases hg : splitOnChar sep cs with
      | nil => exact absurd hg (splitOnChar_ne_nil sep cs)
      | cons p ps =>
        rw [hg] at h
        simp only [List.headD_cons, List.tail_cons] at h
        have h1 : c :: p = b := ((List.cons.injEq _ _ _ _).mp h).1
        have h2 : ps = [] := ((List.cons.injEq _ _ _ _).mp h).2
        subst h2
        have := ih p hg
        refine ⟨by rw [← h1, this.1], ?_⟩
        rw [← h1]
        intro hmem
        rcases List.mem_cons.mp hmem with h' | h'
        · exact hc h'.symm
        · exact this.2 h'

/-- A two-field split characterises the list as `a ++ sep :: b` with
separator-free fields. -/
theorem splitOnChar_eq_pair_iff (sep : Char) (cs a b : List Char) :
    splitOnChar sep cs = [a, b] ↔ cs = a ++ sep :: b ∧ sep ∉ a ∧ sep ∉ b := by
  constructor
  · intro h
    induction cs generalizing a with
    | nil => simp [splitOnChar] at h
    | cons c cs ih =>
      by_cases hc : c = sep
      · subst hc
        simp only [splitOnChar, if_pos rfl] at h
        have ha : a = [] := ((List.cons.injEq _ _ _ _).mp h).1.symm
        have hb : splitOnChar c cs = [b] := ((List.cons.injEq _ _ _ _).mp h).2
        subst ha
        have := splitOnChar_eq_single c cs b hb
        exact ⟨by simp [this.1], by simp, this.2⟩
      · simp only [splitOnChar, if_neg hc] at h
        cases hg : splitOnChar sep cs with
        | nil => exact absurd hg (splitOnChar_ne_nil sep cs)
        | cons p ps =>
          rw [hg] at h
          simp only [List.headD_cons, List.tail_cons] at h
          have h1 : c :: p = a := ((List.cons.injEq _ _ _ _).mp h).1
          have h2 : ps = [b] := ((List.cons.injEq _ _ _ _).mp h).2
          have hps : splitOnChar sep cs = [p, b] := by rw [hg, h2]
          have := ih p hps
          refine ⟨?_, ?_, this.2.2⟩
          · rw [← h1, this.1]; rfl
          · rw [← h1]
            intro hmem
            rcases List.mem_cons.mp hmem with h' | h'
            · exact hc h'.symm
            · exact this.2.1 h'
  · rintro ⟨rfl, ha, hb⟩
    rw [splitOnChar_append sep a b ha, splitOnChar_of_not_mem sep b hb]

/-! ## The numeric token of the wire grammar

The frames of the wire protocol carry decimal numbers matching the regex
fragment `-?\d+(\.\d+)?`. `numToken` is an executable scanner for that
fragment (embedding the regex used at `src/receiverApp/index.tsx:149`),
and `DecTok` is the same language written as a declarative
decomposition, used to state the grammar of the spec. -/

/-- All characters are decimal digits. -/
def digitsOnly : List Char → Bool
  | [] => true
  | c :: cs => c.isDigit && digitsOnly cs

/-- `\.\d+` : a fractional part `.` followed by at least one digit. -/
def fracTail : List Char → Bool
  | [] => false
  | c :: cs => c.isDigit && digitsOnly cs

/-- `\d*(\.\d+)?` : remaining digits of the integer part, optionally
followed by a fractional part. -/
def numTail : List Char → Bool
  | [] => true
  | c :: cs => if c = '.' then fracTail cs else c.isDigit && numTail cs

/-- `-?\d+(\.\d+)?` : an optionally signed decimal number. -/
def numToken : List Char → Bool
  | [] => false
  | c :: rest => if c = '-' then numCore rest else c.isDigit && numTail rest
where
  /-- `\d+(\.\d+)?` : an unsigned decimal number. -/
  numCore : List Char → Bool
    | [] => false
    | c :: cs => c.isDigit && numTail cs

/-- Declarative form of `-?\d+(\.\d+)?`: an optional sign, a non-empty
digit run, and an optional dot-led non-empty digit run. -/
def DecTok (cs : List Char) : Prop :=
  ∃ sign ip fp, cs = sign ++ ip ++ fp ∧ (sign = [] ∨ sign = ['-']) ∧
    ip ≠ [] ∧ (∀ c ∈ ip, c.isDigit = true) ∧
    (fp = [] ∨ ∃ fs, fp = '.' :: fs ∧ fs ≠ [] ∧ (∀ c ∈ fs, c.isDigit = true))

theorem digitsOnly_iff (cs : List Char) :
    digitsOnly cs = true ↔ ∀ c ∈ cs, c.isDigit = true := by
  induction cs with
  | nil => simp [digitsOnly]
  | cons c cs ih => simp [digitsOnly, ih]

/-- A digit is not a dot. -/
theorem isDigit_ne_dot {c : Char} (h : c.isDigit = true) : c ≠ '.' := by
  intro hc; subst hc; simp [Char.isDigit] at h

/-- A digit is not a minus sign. -/
theorem isDigit_ne_minus {c : Char} (h : c.isDigit = true) : c ≠ '-' := by
  intro hc; subst hc; simp [Char.isDigit] at h

/-- A digit is not a comma. -/
theorem isDigit_ne_comma {c : Char} (h : c.isDigit = true) : c ≠ ',' := by
  intro hc; subst hc; simp [Char.isDigit] at h

theorem numTail_dot (cs : List Char) : numTail ('.' :: cs) = fracTail cs := by
  simp [numTail]

theorem numTail_cons_of_ne (c : Char) (cs : List Char) (h : c ≠ '.') :
    numTail (c :: cs) = (c.isDigit && numTail cs) := by
  simp [numTail, h]

theorem numToken_minus (rest : List Char) :
    numToken ('-' :: rest) = numToken.numCore rest := by
  simp [numToken]

theorem numToken_cons_of_ne (c : Char) (rest : List Char) (h : c ≠ '-') :
    numToken (c :: rest) = (c.isDigit && numTail rest) := by
  simp [numToken, h]

/-- Characterisation of `numTail`: digits followed by an optional
fractional part. -/
theorem numTail_iff (cs : List Char) :
    numTail cs = true ↔ ∃ ds fp, cs = ds ++ fp ∧ (∀ c ∈ ds, c.isDigit = true) ∧
      (fp = [] ∨ ∃ fs, fp = '.' :: fs ∧ fs ≠ [] ∧ (∀ c ∈ fs, c.isDigit = true)) := by
  induction cs with
  | nil =>
    constructor
    · intro _; exact ⟨[], [], rfl, by simp, Or.inl rfl⟩
    · intro _; rfl
  | cons c cs ih =>
    constructor
    · intro h
      by_cases hc : c = '.'
      · subst hc
        rw [numTail_dot] at h
        cases cs with
        | nil => simp [fracTail] at h
        | cons f fs =>
          simp only [fracTail, Bool.and_eq_true] at h
          refine ⟨[], '.' :: f :: fs, rfl, by simp, Or.inr ⟨f :: fs, rfl, by simp, ?_⟩⟩
          intro x hx
          rcases List.mem_cons.mp hx with h' | h'
          · exact h' ▸ h.1
          · exact (digitsOnly_iff fs).mp h.2 x h'
      · rw [numTail_cons_of_ne c cs hc] at h
        rw [Bool.and_eq_true] at h
        obtain ⟨ds, fp, rfl, hds, hfp⟩ := ih.mp h.2
        refine ⟨c :: ds, fp, rfl, ?_, hfp⟩
        intro x hx
        rcases List.mem_cons.mp hx with h' | h'
        · exact h' ▸ h.1
        · exact hds x h'
    · rintro ⟨ds, fp, heq, hds, hfp⟩
      cases ds with
      | nil =>
        simp only [List.nil_append] at heq
        rcases hfp with rfl | ⟨fs, rfl, hne, hfs⟩
        · simp at heq
        · have hcd : c = '.' := by injection heq
          have hcs : cs = fs := by injection heq
          subst hcd
          rw [numTail_dot, hcs]
          cases fs with
          | nil => exact absurd rfl hne
          | cons f fs' =>
            simp only [fracTail, Bool.and_eq_true]
            exact ⟨hfs f (List.mem_cons_self _ _),
              (digitsOnly_iff fs').mpr fun x hx => hfs x (List.mem_cons_of_mem _ hx)⟩
      | cons d ds' =>
        have hd : d.isDigit = true := hds d (List.mem_cons_self _ _)
        rw [List.cons_append] at heq
        have hcd : c = d := by injection heq
        have hcs : cs = ds' ++ fp := by injection heq
        subst hcd
        rw [numTail_cons_of_ne c cs (isDigit_ne_dot hd), Bool.and_eq_true]
        exact ⟨hd, hcs ▸ ih.mpr ⟨ds', fp, hcs, fun x hx => hds x (List.mem_cons_of_mem _ hx),
          hfp⟩⟩

/-- The scanner `numToken` recognises exactly the declarative decimal
tokens `DecTok`. -/
theorem numToken_iff_DecTok (cs : List Char) : numToken cs = true ↔ DecTok cs := by
  cases cs with
  | nil =>
    constructor
    · intro h; simp [numToken] at h
    · rintro ⟨sign, ip, fp, heq, hsign, hne, hip, hfp⟩
      rcases hsign with rfl | rfl
      · refine absurd ?_ hne
        have h0 : ip ++ fp = [] := by simpa using heq.symm
        exact (List.append_eq_nil.mp h0).1
      · exact absurd heq.symm (by simp)
  | cons c rest =>
    by_cases hc : c = '-'
    · subst hc
      constructor
      · intro h
        rw [numToken_minus] at h
        cases rest with
        | nil => simp [numToken.numCore] at h
        | cons d ds =>
          simp only [numToken.numCore, Bool.and_eq_true] at h
          obtain ⟨es, fp, rfl, hes, hfp⟩ := (numTail_iff ds).mp h.2
          refine ⟨['-'], d :: es, fp, by simp, Or.inr rfl, by simp, ?_, hfp⟩
          intro x hx
          rcases List.mem_cons.mp hx with h' | h'
          · exact h' ▸ h.1
          · exact hes x h'
      · rintro ⟨sign, ip, fp, heq, hsign, hne, hip, hfp⟩
        rcases hsign with rfl | rfl
        · -- no sign: the head `-` would have to be a digit
          simp only [List.nil_append] at heq
          cases ip with
          | nil => exact absurd rfl hne
          | cons i ip' =>
            rw [List.cons_append] at heq
            have hmi : '-' = i := by injection heq
            exact absurd (hmi ▸ hip i (List.mem_cons_self _ _))
              (by intro h; exact isDigit_ne_minus h rfl)
        · simp only [List.cons_append, List.nil_append] at heq
          have hrest : rest = ip ++ fp := by injection heq
          cases ip with
          | nil => exact absurd rfl hne
          | cons i ip' =>
            rw [numToken_minus, hrest, List.cons_append]
            simp only [numToken.numCore, Bool.and_eq_true]
            exact ⟨hip i (List.mem_cons_self _ _),
              (numTail_iff _).mpr ⟨ip', fp, rfl,
                fun x hx => hip x (List.mem_cons_of_mem _ hx), hfp⟩⟩
    · constructor
      · intro h
        rw [numToken_cons_of_ne c rest hc, Bool.and_eq_true] at h
        obtain ⟨es, fp, rfl, hes, hfp⟩ := (numTail_iff rest).mp h.2
        refine ⟨[], c :: es, fp, by simp, Or.inl rfl, by simp, ?_, hfp⟩
        intro x hx
        rcases List.mem_cons.mp hx with h' | h'
        · exact h' ▸ h.1
        · exact hes x h'
      · rintro ⟨sign, ip, fp, heq, hsign, hne, hip, hfp⟩
        rcases hsign with rfl | rfl
        · simp only [List.nil_append] at heq
          cases ip with
          | nil => exact absurd rfl hne
          | cons i ip' =>
            rw [List.cons_append] at heq
            have hci : c = i := by injection heq
            have hrest : rest = ip' ++ fp := by injection heq
            rw [numToken_cons_of_ne c rest hc, Bool.and_eq_true]
            exact ⟨hci ▸ hip i (List.mem_cons_self _ _),
              hrest ▸ (numTail_iff _).mpr ⟨ip', fp, rfl,
                fun x hx => hip x (List.mem_cons_of_mem _ hx), hfp⟩⟩
        · rw [List.cons_append] at heq
          exact absurd (by injection heq : c = '-') hc

/-- Decimal tokens never contain a comma. -/
theorem DecTok_comma_not_mem {cs : List Char} (h : DecTok cs) : ',' ∉ cs := by
  obtain ⟨sign, ip, fp, rfl, hsign, _, hip, hfp⟩ := h
  intro hmem
  rcases List.mem_append.mp hmem with hm | hm
  · rcases List.mem_append.mp hm with hm' | hm'
    · rcases hsign with rfl | rfl
      · simp at hm'
      · simp at hm'
    · exact isDigit_ne_comma (hip _ hm') rfl
  · rcases hfp with rfl | ⟨fs, rfl, _, hfs⟩
    · simp at hm
    · rcases List.mem_cons.mp hm with h' | h'
      · simp at h'
      · exact isDigit_ne_comma (hfs _ h') rfl

/-! ## JavaScript `parseFloat`

`parseFloat` parses the longest numeric prefix of a string (optional
sign, integer digits, optional fractional part) and returns `NaN` when
no digit is found. Exponents, `Infinity` and leading whitespace are not
modelled: no caller in this repository can feed them past its
validation, and the malformed inputs of the claims do not use them. -/

/-- A digit is not a plus sign. -/
theorem isDigit_ne_plus {c : Char} (h : c.isDigit = true) : c ≠ '+' := by
  intro hc; subst hc; simp [Char.isDigit] at h

/-- Consume a run of decimal digits: accumulated value, number of digits
consumed so far, rest of the input. -/
def readDigits (acc k : ℕ) : List Char → ℕ × ℕ × List Char
  | [] => (acc, k, [])
  | c :: cs =>
    if c.isDigit then readDigits (10 * acc + (c.toNat - 48)) (k + 1) cs
    else (acc, k, c :: cs)

/-- Parse digits, then an optional `.`-led digit run, after the sign has
been consumed; `NaN` when no digit was found at all. -/
def parseAfterSign (sgn : ℚ) (cs : List Char) : JSVal :=
  match (readDigits 0 0 cs).2.2 with
  | '.' :: r2 =>
    if (readDigits 0 0 cs).2.1 + (readDigits 0 0 r2).2.1 = 0 then JSVal.nan
    else JSVal.num (sgn * (((readDigits 0 0 cs).1 : ℚ) +
      ((readDigits 0 0 r2).1 : ℚ) / (10 : ℚ) ^ (readDigits 0 0 r2).2.1))
  | _ =>
    if (readDigits 0 0 cs).2.1 = 0 then JSVal.nan
    else JSVal.num (sgn * ((readDigits 0 0 cs).1 : ℚ))

/-- JavaScript `parseFloat` on the characters of a string. -/
def jsParseFloatL (cs : List Char) : JSVal :=
  match cs with
  | c :: rest =>
    if c = '-' then parseAfterSign (-1) rest
    else if c = '+' then parseAfterSign 1 rest
    else parseAfterSign 1 (c :: rest)
  | [] => JSVal.nan

/-- JavaScript `parseFloat` on a string. -/
def jsParseFloat (s : String) : JSVal := jsParseFloatL s.data

theorem readDigits_count_le (cs : List Char) : ∀ acc k, k ≤ (readDigits acc k cs).2.1 := by
  induction cs with
  | nil => intro acc k; exact le_refl k
  | cons c cs ih =>
    intro acc k
    by_cases hd : c.isDigit = true
    · rw [readDigits, if_pos hd]
      exact le_trans (Nat.le_succ k) (ih _ (k + 1))
    · rw [readDigits, if_neg hd]

/-- When at least one integer digit is read, the parse succeeds. -/
theorem parseAfterSign_num (sgn : ℚ) (cs : List Char)
    (hk : 1 ≤ (readDigits 0 0 cs).2.1) : ∃ q, parseAfterSign sgn cs = JSVal.num q := by
  unfold parseAfterSign
  split
  · rw [if_neg (by omega)]
    exact ⟨_, rfl⟩
  · rw [if_neg (by omega)]
    exact ⟨_, rfl⟩

theorem readDigits_head_pos {d : Char} (cs : List Char) (hd : d.isDigit = true) :
    1 ≤ (readDigits 0 0 (d :: cs)).2.1 := by
  rw [readDigits, if_pos hd]
  exact readDigits_count_le cs _ 1

/-- A scanned decimal token always parses to an actual number: the
`isNaN` re-check after a successful regex validation can never fire. -/
theorem jsParseFloatL_num_of_numToken {cs : List Char} (h : numToken cs = true) :
    ∃ q, jsParseFloatL cs = JSVal.num q := by
  cases cs with
  | nil => simp [numToken] at h
  | cons c rest =>
    by_cases hc : c = '-'
    · subst hc
      rw [numToken_minus] at h
      cases rest with
      | nil => simp [numToken.numCore] at h
      | cons d ds =>
        simp only [numToken.numCore, Bool.and_eq_true] at h
        rw [jsParseFloatL, if_pos rfl]
        exact parseAfterSign_num (-1) (d :: ds) (readDigits_head_pos ds h.1)
    · rw [numToken_cons_of_ne c rest hc, Bool.and_eq_true] at h
      rw [jsParseFloatL, if_neg hc, if_neg (isDigit_ne_plus h.1)]
      exact parseAfterSign_num 1 (c :: rest) (readDigits_head_pos rest h.1)

/-! ## The protocol decoder -/

/-- The kind of a decoded sample: tag `B` is a baseline calibration
frame, tag `V` a reference frame. -/
inductive SampleKind where
  | baseline
  | reference
deriving DecidableEq

/-- A successfully decoded frame: `primary` is the first number (the
baseline or reference voltage), `secondary` the second (the reading). -/
structure Sample where
  kind : SampleKind
  primary : ℚ
  secondary : ℚ
deriving DecidableEq

/-- `rest.split(',')` destructured into exactly two fields, as done by
`const [firstStr, secondStr] = decoded.slice(1).split(',')` after the
regex guaranteed a single comma (and by the explicit
`parts.length === 2` check of `src/unnamed/part_000:134`). -/
def commaParts (cs : List Char) : Option (List Char × List Char) :=
  match splitOnChar ',' cs with
  | [a, b] => some (a, b)
  | _ => none

theorem commaParts_eq_some_iff (cs a b : List Char) :
    commaParts cs = some (a, b) ↔ cs = a ++ ',' :: b ∧ ',' ∉ a ∧ ',' ∉ b := by
  rw [← splitOnChar_eq_pair_iff]
  unfold commaParts
  rcases hs : splitOnChar ',' cs with _ | ⟨p, ps⟩
  · exact absurd hs (splitOnChar_ne_nil ',' cs)
  · rcases ps with _ | ⟨q, qs⟩
    · simp
    · rcases qs with _ | ⟨r, rs⟩
      · simp [List.cons.injEq]
      · simp

/-- The frame validation regex of the receiver app,
`/^[BV]-?\d+(\.\d+)?,-?\d+(\.\d+)?$/` (`src/receiverApp/index.tsx:149`
and `386`): one tag character `B` or `V`, then two comma-separated
decimal tokens with no separating comma after the tag. -/
def isValidFrameL : List Char → Bool
  | [] => false
  | c :: rest =>
    (c = 'B' || c = 'V') &&
      (match commaParts rest with
       | some (a, b) => numToken a && numToken b
       | none => false)

/-- String-level frame validation. -/
def isValidFrame (s : String) : Bool := isValidFrameL s.data

/-- The full decode pipeline of `monitorNotifications` in the receiver
app (`src/receiverApp/index.tsx:147-157`): regex validation, then
`charAt(0)`, `slice(1).split(',')`, `parseFloat` on both parts and the
`isNaN` re-check; tag `B` yields a baseline sample, tag `V` a reference
sample. -/
def decodeReceiverL (cs : List Char) : Option Sample :=
  if isValidFrameL cs then
    match cs with
    | c :: rest =>
      match commaParts rest with
      | some (a, b) =>
        match jsParseFloatL a, jsParseFloatL b with
        | JSVal.num p, JSVal.num q =>
          some ⟨if c = 'B' then SampleKind.baseline else SampleKind.reference, p, q⟩
        | _, _ => none
      | none => none
    | [] => none
  else none

/-- The receiver-app decoder on a string frame. -/
def decodeReceiver (s : String) : Option Sample := decodeReceiverL s.data

/-- The wire grammar as stated by the spec:
`^[BV](-?\d+(\.\d+)?),(-?\d+(\.\d+)?)$` — one tag character `B` or `V`
immediately followed by the first decimal number (no separating comma
after the tag), then a comma and the second decimal number. -/
def MatchesWireGrammar (s : String) : Prop :=
  ∃ t a b, (t = 'B' ∨ t = 'V') ∧ DecTok a ∧ DecTok b ∧ s.data = t :: (a ++ ',' :: b)

theorem isValidFrameL_iff (cs : List Char) :
    isValidFrameL cs = true ↔
      ∃ t a b, (t = 'B' ∨ t = 'V') ∧ DecTok a ∧ DecTok b ∧ cs = t :: (a ++ ',' :: b) := by
  cases cs with
  | nil =>
    simp only [isValidFrameL]
    constructor
    · intro h; cases h
    · rintro ⟨t, a, b, _, _, _, h⟩; cases h
  | cons c rest =>
    constructor
    · intro h
      simp only [isValidFrameL, Bool.and_eq_true] at h
      have htag : c = 'B' ∨ c = 'V' := by
        have := h.1
        rcases Bool.or_eq_true_iff.mp this with h' | h'
        · exact Or.inl (by simpa using h')
        · exact Or.inr (by simpa using h')
      rcases hcp : commaParts rest with _ | ⟨a, b⟩
      · rw [hcp] at h
        cases h.2
      · rw [hcp] at h
        have htok : numToken a = true ∧ numToken b = true := by
          have := h.2
          simpa using this
        have hsplit := (commaParts_eq_some_iff rest a b).mp hcp
        exact ⟨c, a, b, htag, (numToken_iff_DecTok a).mp htok.1,
          (numToken_iff_DecTok b).mp htok.2, by rw [hsplit.1]⟩
    · rintro ⟨t, a, b, htag, hda, hdb, heq⟩
      have hct : c = t := by injection heq
      have hrest : rest = a ++ ',' :: b := by injection heq
      have hcp : commaParts rest = some (a, b) :=
        (commaParts_eq_some_iff rest a b).mpr
          ⟨hrest, DecTok_comma_not_mem hda, DecTok_comma_not_mem hdb⟩
      simp only [isValidFrameL, hcp, Bool.and_eq_true]
      refine ⟨?_, ?_⟩
      · rcases htag with rfl | rfl
        · rw [hct]; simp
        · rw [hct]; simp
      · exact ⟨(numToken_iff_DecTok a).mpr hda, (numToken_iff_DecTok b).mpr hdb⟩

/-- The receiver-app decoder succeeds exactly on valid frames: the
`parseFloat`/`isNaN` steps after the regex never reject. -/
theorem decodeReceiverL_isSome_iff (cs : List Char) :
    (decodeReceiverL cs).isSome = true ↔ isValidFrameL cs = true := by
  constructor
  · intro h
    cases hv : isValidFrameL cs
    · simp [decodeReceiverL.eq_def, hv] at h
    · rfl
  · intro hv
    obtain ⟨t, a, b, htag, hda, hdb, heq⟩ := (isValidFrameL_iff cs).mp hv
    subst heq
    have hcp : commaParts (a ++ ',' :: b) = some (a, b) :=
      (commaParts_eq_some_iff _ a b).mpr
        ⟨rfl, DecTok_comma_not_mem hda, DecTok_comma_not_mem hdb⟩
    obtain ⟨p, hp⟩ := jsParseFloatL_num_of_numToken ((numToken_iff_DecTok a).mpr hda)
    obtain ⟨q, hq⟩ := jsParseFloatL_num_of_numToken ((numToken_iff_DecTok b).mpr hdb)
    rw [decodeReceiverL.eq_def, if_pos hv]
    simp only [hcp, hp, hq, Option.isSome_some]

/-- The receiver-app decoder accepts exactly the wire grammar of the
spec. -/
theorem decodeReceiver_isSome_iff_grammar (s : String) :
    (decodeReceiver s).isSome = true ↔ MatchesWireGrammar s := by
  rw [decodeReceiver, decodeReceiverL_isSome_iff, isValidFrameL_iff]
  rfl

/-- The notification decoder of the graph/logging variant
(`src/unnamed/part_001:115-121`): regex
`^([BV]),(-?\d+(\.\d+)?),(-?\d+(\.\d+)?)$` — a comma between the tag
character and the first number — then `parseFloat` of the two captured
number groups (no further check is needed after this regex). -/
def decode001L (cs : List Char) : Option Sample :=
  match cs with
  | t :: c :: rest =>
    if (t = 'B' || t = 'V') && (c = ',') then
      match commaParts rest with
      | some (a, b) =>
        if numToken a && numToken b then
          match jsParseFloatL a, jsParseFloatL b with
          | JSVal.num p, JSVal.num q =>
            some ⟨if t = 'B' then SampleKind.baseline else SampleKind.reference, p, q⟩
          | _, _ => none
        else none
      | none => none
    else none
  | _ => none

/-- The part_001 decoder on a string frame. -/
def decode001 (s : String) : Option Sample := decode001L s.data

/-! ## The receiver app: value deriver and connection lifecycle

Model of the first app variant of `src/receiverApp/index.tsx`
(lines 21-258). `baselineRef` is the always-fresh ref driving the
arithmetic (`baselineRef.current`); `Baseline` is its reactive mirror
(`updateBaseline` at lines 39-42 sets both synchronously). All numeric
state reachable here is non-`NaN` because the handler checks `isNaN`
before any update, so the fields are modelled as `Option ℚ`
(`none` = JavaScript `null`). -/

structure AppState where
  baselineRef : Option ℚ
  Baseline : Option ℚ
  Vref : Option ℚ
  Reading : Option ℚ
  Value : Option ℚ
  connectedDevice : Bool
  connecting : Bool
  scanTime : ℕ
  connectedTime : ℕ
  scanTimerActive : Bool
  connectedTimerActive : Bool
deriving DecidableEq

/-- The initial state of the app: all observables `null`, not connected,
not scanning. -/
def appInit : AppState :=
  { baselineRef := none, Baseline := none, Vref := none, Reading := none, Value := none
    connectedDevice := false, connecting := false, scanTime := 0, connectedTime := 0
    scanTimerActive := false, connectedTimerActive := false }

/-- The notification handler of `monitorNotifications`
(`src/receiverApp/index.tsx:147-170`): on a decode failure, return
without touching any state; on success, `setReading(secondFloat)`,
then `updateBaseline(firstFloat)` for tag `B` (ref and mirror together)
or `setVref(firstFloat)` for tag `V`, then
`if (baselineRef.current !== null) setValue(secondFloat - baselineRef.current)`. -/
def notifyHandler (s : String) (st : AppState) : AppState :=
  match decodeReceiver s with
  | none => st
  | some smp =>
    let st1 := { st with Reading := some smp.secondary }
    let st2 :=
      match smp.kind with
      | SampleKind.baseline =>
        { st1 with baselineRef := some smp.primary, Baseline := some smp.primary }
      | SampleKind.reference => { st1 with Vref := some smp.primary }
    match st2.baselineRef with
    | some b => { st2 with Value := some (smp.secondary - b) }
    | none => st2

/-- `disconnect()` of the first app variant
(`src/receiverApp/index.tsx:175-195`): clears both timers, the device,
every reactive observable and both counters. `baselineRef.current` is
not touched there. -/
def appDisconnect (st : AppState) : AppState :=
  { st with connectedDevice := false, Baseline := none, Vref := none, Reading := none,
            Value := none, connecting := false, connectedTime := 0, scanTime := 0,
            scanTimerActive := false, connectedTimerActive := false }

/-- Events driving the pipeline: `start` is `startScanAndConnect` with
permission granted (lines 82-95); `connect` is the scan callback finding
the target and connecting (lines 106-131); `frame` is one notification
while connected; `notifyError` is the notification-error branch
(lines 141-145); `linkDisconnect` is the `onDisconnected` event
(lines 122-125); `disconnectBtn` is the explicit disconnect command. -/
inductive PipeOp where
  | start
  | connect
  | frame (s : String)
  | notifyError
  | linkDisconnect
  | disconnectBtn

/-- One step of the connection/value pipeline. -/
def pipeStep (st : AppState) : PipeOp → AppState
  | PipeOp.start =>
    { st with scanTime := 0, connecting := true, scanTimerActive := true }
  | PipeOp.connect =>
    if st.connecting then
      { st with connectedDevice := true, connecting := false, connectedTime := 0,
                connectedTimerActive := true, scanTimerActive := false }
    else st
  | PipeOp.frame s => if st.connectedDevice then notifyHandler s st else st
  | PipeOp.notifyError => appDisconnect st
  | PipeOp.linkDisconnect => if st.connectedDevice then appDisconnect st else st
  | PipeOp.disconnectBtn => appDisconnect st

/-- The state after a sequence of pipeline events, from the initial
state. -/
def runPipe (ops : List PipeOp) : AppState := ops.foldl pipeStep appInit

/-- The derived-value invariant, as a predicate on states. -/
def ValueInv (st : AppState) : Prop := st.Value.isSome = true → st.baselineRef.isSome = true

theorem notifyHandler_valueInv (s : String) (st : AppState) (h : ValueInv st) :
    ValueInv (notifyHandler s st) := by
  unfold notifyHandler
  cases hd : decodeReceiver s with
  | none => exact h
  | some smp =>
    obtain ⟨k, p, q⟩ := smp
    cases k with
    | baseline => intro _; rfl
    | reference =>
      cases hb : st.baselineRef with
      | some b => intro _; simp [hb]
      | none =>
        intro hv
        have hv' : st.Value.isSome = true := by simpa [hb] using hv
        have hbs := h hv'
        rw [hb] at hbs
        simp at hbs

theorem pipeStep_valueInv (st : AppState) (op : PipeOp) (h : ValueInv st) :
    ValueInv (pipeStep st op) := by
  cases op with
  | start =>
    intro hv
    exact h hv
  | connect =>
    intro hv
    by_cases hc : st.connecting
    · simp only [pipeStep, if_pos hc] at hv ⊢
      exact h hv
    · simp only [pipeStep, if_neg hc] at hv ⊢
      exact h hv
  | frame s =>
    intro hv
    by_cases hc : st.connectedDevice
    · simp only [pipeStep, if_pos hc] at hv ⊢
      exact notifyHandler_valueInv s st h hv
    · simp only [pipeStep, if_neg hc] at hv ⊢
      exact h hv
  | notifyError =>
    intro hv
    simp [pipeStep, appDisconnect] at hv
  | linkDisconnect =>
    intro hv
    by_cases hc : st.connectedDevice
    · simp only [pipeStep, if_pos hc] at hv
      simp [appDisconnect] at hv
    · simp only [pipeStep, if_neg hc] at hv ⊢
      exact h hv
  | disconnectBtn =>
    intro hv
    simp [pipeStep, appDisconnect] at hv

/-- The invariant holds in every reachable state. -/
theorem runPipe_valueInv (ops : List PipeOp) : ValueInv (runPipe ops) := by
  suffices h : ∀ st, ValueInv st → ValueInv (List.foldl pipeStep st ops) from
    h appInit (by intro hv; simp [appInit] at hv)
  induction ops with
  | nil => intro st h; exact h
  | cons op ops ih =>
    intro st h
    exact ih (pipeStep st op) (pipeStep_valueInv st op h)

/-! ## The second receiver-app variant

Model of the second app of `src/receiverApp/index.tsx` (lines 279-471),
whose `disconnect()` (lines 418-433) clears connection state and then
calls `setConnecting(true); startScanAndConnect()`, restarting the scan
with no external call. That variant has no scan-duration counter. -/

structure App2State where
  baselineRef : Option ℚ
  Baseline : Option ℚ
  Vref : Option ℚ
  Reading : Option ℚ
  Value : Option ℚ
  connectedDevice : Bool
  connecting : Bool
  scanActive : Bool
deriving DecidableEq

/-- `disconnect()` of the second variant (`src/receiverApp/index.tsx:418-433`):
if a device is connected, cancel the connection and null the
observables; then `setConnecting(true)` and `startScanAndConnect()`
(permission-granted path: `stopDeviceScan` then `startDeviceScan`). -/
def app2Disconnect (st : App2State) : App2State :=
  let st1 :=
    if st.connectedDevice then
      { st with connectedDevice := false, Baseline := none, Vref := none, Reading := none,
                Value := none }
    else st
  { st1 with connecting := true, scanActive := true }

/-! ## The scan-list variant (`src/unnamed/part_000`)

Its poll handler (lines 119-159) parses without a validation regex:
`charAt(0)`, `substring(1).split(',')`, a `parts.length === 2` check,
`parseFloat` of both parts with no `isNaN` guard before the state
updates. The `setValue` updater reads the component state `Baseline`
captured in the interval callback's closure, passed here explicitly as
`closureBaseline`. `NaN` can reach this state, so fields are
`Option JSVal`. -/

structure P0State where
  Baseline : Option JSVal
  Vref : Option JSVal
  Reading : Option JSVal
  Value : Option JSVal
deriving DecidableEq

/-- All observables start as `null`. -/
def p0Init : P0State :=
  { Baseline := none, Vref := none, Reading := none, Value := none }

/-- The parse-and-update block of `connectToDevice`
(`src/unnamed/part_000:130-154`). -/
def processFrame000 (closureBaseline : Option JSVal) (s : String) (st : P0State) : P0State :=
  match s.data with
  | [] => st
  | ty :: rest =>
    match commaParts rest with
    | none => st
    | some (aStr, bStr) =>
      let firstFloat := jsParseFloatL aStr
      let secondFloat := jsParseFloatL bStr
      let st1 :=
        if ty = 'B' then { st with Baseline := some firstFloat }
        else if ty = 'V' then { st with Vref := some firstFloat }
        else st
      let st2 := { st1 with Reading := some secondFloat }
      let newValue :=
        if ty = 'B' then
          if secondFloat.isNaN then none else some (JSVal.sub secondFloat firstFloat)
        else
          match closureBaseline with
          | some bv => if secondFloat.isNaN then st.Value else some (JSVal.sub secondFloat bv)
          | none => st.Value
      { st2 with Value := newValue }

/-! ## The telemetry window (`src/unnamed/part_001:131-135`) -/

/-- A point of the live graph: the derived value `x`, the display offset
`y` in seconds, and the arrival timestamp in milliseconds. -/
structure GraphPoint where
  x : ℚ
  y : ℚ
  timestamp : ℤ
deriving DecidableEq

/-- `MAX_GRAPH_SECONDS` (`src/unnamed/part_001:23`). -/
def MAX_GRAPH_SECONDS : ℤ := 10

/-- One insert into the graph buffer (`src/unnamed/part_001:135`): keep
every old point with `now - d.timestamp < MAX_GRAPH_SECONDS * 1000` and
append the new point, whose `y` offset is computed from the first point
of the buffer as it was before this insert (`data[0]?.timestamp ?? now`). -/
def graphInsert (v : ℚ) (now : ℤ) (data : List GraphPoint) : List GraphPoint :=
  data.filter (fun d => now - d.timestamp < MAX_GRAPH_SECONDS * 1000) ++
    [{ x := v,
       y := (((now - (match data.head? with | some d => d.timestamp | none => now)) : ℤ) : ℚ)
         / 1000,
       timestamp := now }]

/-- `n` successive inserts of value `0` all at timestamp `0`. -/
def repInsert : ℕ → List GraphPoint
  | 0 => []
  | n + 1 => graphInsert 0 0 (repInsert n)

/-! ## The scan lifecycle of the scan-list variant
(`src/unnamed/part_000:80-105`) -/

/-- The advertised name matched by every variant. -/
def TARGET_NAME : String := "TRANSMITTER"

/-- The scanning state of the scan-list variant: the `scanning` flag,
the discovered device list (ids), and the delay of the single
`setTimeout` scheduled by `startScan` (10000 ms, line 101-104). -/
structure ScanState where
  scanning : Bool
  deviceIds : List String
  stopAfterMs : ℤ
deriving DecidableEq

/-- The state right after `startScan` (permission granted): list
cleared, scanning set, stop scheduled 10000 ms ahead. -/
def startScanState : ScanState :=
  { scanning := true, deviceIds := [], stopAfterMs := 10000 }

/-- Events of one scan session: a discovery callback, a scan error, or
the scheduled timeout firing. -/
inductive ScanEvent where
  | found (name id : String)
  | scanError
  | timeoutFire

/-- The scan callback (`src/unnamed/part_000:87-99`) and the timeout
(lines 101-104): a discovered device whose name matches `TARGET_NAME`
is appended to the list if not already present — the scan is NOT
stopped; an error or the timeout stops the scan. -/
def scanStep (st : ScanState) : ScanEvent → ScanState
  | ScanEvent.found nm id =>
    if st.scanning then
      if nm = TARGET_NAME then
        if st.deviceIds.contains id then st
        else { st with deviceIds := st.deviceIds ++ [id] }
      else st
    else st
  | ScanEvent.scanError => { st with scanning := false }
  | ScanEvent.timeoutFire => { st with scanning := false }

/-- A run of discovery events from a fresh `startScan`. -/
def runScanFound (evs : List (String × String)) : ScanState :=
  List.foldl scanStep startScanState (evs.map fun e => ScanEvent.found e.1 e.2)

/-! ## The session logger (`src/unnamed/part_001:41-43, 137-140, 159-183`)

The row buffer `logEntries` is a list of strings, exactly as in the
source: `startLogging` seeds it with one multi-line header string and
`stopLogging` joins it with `'\n'` and always writes the result. -/

/-- Decimal digits of a natural number, most significant first (the
first argument is fuel, so the definition is structural and evaluates
under kernel reduction). -/
def natDigits (n : ℕ) : List Char :=
  if n = 0 then ['0'] else go n n []
where
  go : ℕ → ℕ → List Char → List Char
    | 0, _, acc => acc
    | _ + 1, 0, acc => acc
    | fuel + 1, m, acc => go fuel (m / 10) (Char.ofNat (48 + m % 10) :: acc)

/-- Left-pad with `'0'` to width `w`. -/
def padZeros (w : ℕ) (cs : List Char) : List Char :=
  List.replicate (w - cs.length) '0' ++ cs

/-- `toFixed` of a non-negative rational: round half-up to `d` decimals
(`n` closest to `q·10^d`, ties towards the larger `n`, per ECMA) and
print with exactly `d` fractional digits. -/
def jsToFixedPos (d : ℕ) (q : ℚ) : List Char :=
  natDigits ((q * (10 : ℚ) ^ d + 1 / 2).floor.toNat / 10 ^ d) ++
    '.' :: padZeros d (natDigits ((q * (10 : ℚ) ^ d + 1 / 2).floor.toNat % 10 ^ d))

/-- JavaScript `Number.prototype.toFixed(d)` for `d ≥ 1`: a negative
number is printed as `-` followed by `toFixed` of its negation. -/
def jsToFixed (d : ℕ) (q : ℚ) : String :=
  if q < 0 then ⟨'-' :: jsToFixedPos d (-q)⟩ else ⟨jsToFixedPos d q⟩

/-- The logger state: `isLogging`, `loggingStartTime` (ms) and the row
buffer `logEntries`. -/
structure LoggerState where
  isLogging : Bool
  loggingStartTime : Option ℤ
  logEntries : List String
deriving DecidableEq

/-- Before any session: not logging, no start time, empty buffer. -/
def loggerInit : LoggerState :=
  { isLogging := false, loggingStartTime := none, logEntries := [] }

/-- `${Baseline ?? 'Unknown'}` in the header: a `null` baseline prints
`Unknown`. (A numeric baseline goes through JavaScript number-to-string
in the source; that rendering is approximated here with 6-decimal
`toFixed` — every theorem below only exercises the `null` case.) -/
def baselineField : Option ℚ → String
  | none => "Unknown"
  | some q => jsToFixed 6 q

/-- The header string built by `startLogging` (`src/unnamed/part_001:164`):
`Date: <d>\nStart Time: <t>\nBaseline(V): <b-or-Unknown>\n\nTime(s),Reading(V)`. -/
def logHeader (dateStr timeStr : String) (b : Option ℚ) : String :=
  "Date: " ++ dateStr ++ "\nStart Time: " ++ timeStr ++ "\nBaseline(V): " ++
    baselineField b ++ "\n\nTime(s),Reading(V)"

/-- `startLogging` (`src/unnamed/part_001:159-167`): capture the start
time, reset the row buffer to the single header row, set `isLogging`. -/
def startLogging (now : ℤ) (dateStr timeStr : String) (b : Option ℚ)
    (st : LoggerState) : LoggerState :=
  { st with loggingStartTime := some now, logEntries := [logHeader dateStr timeStr b],
            isLogging := true }

/-- One recorded data row (`src/unnamed/part_001:139`):
`` `${((now - loggingStartTime)/1000).toFixed(3)},${value.toFixed(6)}` ``. -/
def dataLine (offsetMs : ℤ) (value : ℚ) : String :=
  jsToFixed 3 ((offsetMs : ℚ) / 1000) ++ "," ++ jsToFixed 6 value

/-- The logging branch of the notification handler
(`src/unnamed/part_001:137-140`): append one data row while a session is
active, no-op otherwise. -/
def logRecord (now : ℤ) (value : ℚ) (st : LoggerState) : LoggerState :=
  if st.isLogging then
    match st.loggingStartTime with
    | some t0 => { st with logEntries := st.logEntries ++ [dataLine (now - t0) value] }
    | none => st
  else st

/-- `logEntries.join('\n')` (`src/unnamed/part_001:181`). -/
def joinLines : List String → String
  | [] => ""
  | [x] => x
  | x :: xs => x ++ "\n" ++ joinLines xs

/-- The outcome of `stopLogging`: the new state, the content written to
the sink, and the toast message. -/
structure StopResult where
  state : LoggerState
  written : Option String
  message : String
deriving DecidableEq

/-- `stopLogging` (`src/unnamed/part_001:169-183`): clear `isLogging`,
then unconditionally write `logEntries.join('\n')` to the next free
`logs/vaneTestData_<date>_<n>.csv` and toast `CSV file saved`. There is
no empty-buffer check: the write happens even when no data row was ever
recorded. -/
def stopLogging (st : LoggerState) : StopResult :=
  { state := { st with isLogging := false },
    written := some (joinLines st.logEntries),
    message := "CSV file saved" }

/-- The lines of a file content: split on `'\n'`. -/
def linesOfStr (s : String) : List String :=
  (splitOnChar '\n' s.data).map fun cs => ⟨cs⟩

theorem linesOfStr_single (s : String) (h : '\n' ∉ s.data) : linesOfStr s = [s] := by
  unfold linesOfStr
  rw [splitOnChar_of_not_mem _ _ h]
  rfl

theorem linesOfStr_append (a b : String) (ha : '\n' ∉ a.data) :
    linesOfStr (a ++ "\n" ++ b) = a :: linesOfStr b := by
  unfold linesOfStr
  have hd : (a ++ "\n" ++ b).data = a.data ++ '\n' :: b.data := by
    rw [String.data_append, String.data_append]
    simp
  rw [hd, splitOnChar_append _ _ _ ha]
  rfl

/-! ## Line structure of the exported log -/

theorem natDigits_go_ne_nl :
    ∀ fuel m acc, (∀ c ∈ acc, c ≠ '\n') → ∀ c ∈ natDigits.go fuel m acc, c ≠ '\n' := by
  intro fuel
  induction fuel with
  | zero => intro m acc hacc c hc; exact hacc c hc
  | succ fuel ih =>
    intro m acc hacc c hc
    cases m with
    | zero => exact hacc c hc
    | succ m' =>
      have hstep : natDigits.go (fuel + 1) (m' + 1) acc =
          natDigits.go fuel ((m' + 1) / 10) (Char.ofNat (48 + (m' + 1) % 10) :: acc) := rfl
      rw [hstep] at hc
      refine ih ((m' + 1) / 10) (Char.ofNat (48 + (m' + 1) % 10) :: acc) ?_ c hc
      intro c' hc'
      rcases List.mem_cons.mp hc' with h' | h'
      · subst h'
        have hlt : (m' + 1) % 10 < 10 := Nat.mod_lt _ (by omega)
        revert hlt
        have : ∀ r, r < 10 → Char.ofNat (48 + r) ≠ '\n' := by decide
        exact this _
      · exact hacc c' h'

theorem natDigits_ne_nl (n : ℕ) : ∀ c ∈ natDigits n, c ≠ '\n' := by
  unfold natDigits
  by_cases h : n = 0
  · rw [if_pos h]
    intro c hc
    have : c = '0' := by simpa using hc
    subst this
    decide
  · rw [if_neg h]
    exact natDigits_go_ne_nl n n [] (by simp)

theorem padZeros_ne_nl (w : ℕ) (cs : List Char) (h : ∀ c ∈ cs, c ≠ '\n') :
    ∀ c ∈ padZeros w cs, c ≠ '\n' := by
  intro c hc
  rcases List.mem_append.mp hc with h' | h'
  · have := List.eq_of_mem_replicate h'
    subst this
    decide
  · exact h c h'

theorem jsToFixedPos_ne_nl (d : ℕ) (q : ℚ) : ∀ c ∈ jsToFixedPos d q, c ≠ '\n' := by
  intro c hc
  unfold jsToFixedPos at hc
  rcases List.mem_append.mp hc with h' | h'
  · exact natDigits_ne_nl _ c h'
  · rcases List.mem_cons.mp h' with h2 | h2
    · subst h2; decide
    · exact padZeros_ne_nl _ _ (natDigits_ne_nl _) c h2

theorem jsToFixed_data_not_nl (d : ℕ) (q : ℚ) : '\n' ∉ (jsToFixed d q).data := by
  intro hm
  unfold jsToFixed at hm
  by_cases hq : q < 0
  · rw [if_pos hq] at hm
    have hm' : '\n' ∈ '-' :: jsToFixedPos d (-q) := hm
    rcases List.mem_cons.mp hm' with h' | h'
    · exact absurd h'.symm (by decide)
    · exact jsToFixedPos_ne_nl d (-q) _ h' rfl
  · rw [if_neg hq] at hm
    exact jsToFixedPos_ne_nl d q _ hm rfl

theorem dataLine_data_not_nl (o : ℤ) (v : ℚ) : '\n' ∉ (dataLine o v).data := by
  intro hm
  unfold dataLine at hm
  rw [String.data_append, String.data_append] at hm
  rcases List.mem_append.mp hm with h | h
  · rcases List.mem_append.mp h with h' | h'
    · exact jsToFixed_data_not_nl 3 _ h'
    · have : '\n' ∈ [','] := h'
      simp at this
  · exact jsToFixed_data_not_nl 6 _ h

theorem not_nl_append (a b : String) (ha : '\n' ∉ a.data) (hb : '\n' ∉ b.data) :
    '\n' ∉ (a ++ b).data := by
  rw [String.data_append]
  intro hm
  rcases List.mem_append.mp hm with h | h
  · exact ha h
  · exact hb h

/-- The joined log file of one header row and three data rows splits
into exactly the five header lines followed by the three data rows. -/
theorem linesOf_logFile (d t : String) (b : Option ℚ) (l1 l2 l3 : String)
    (hd : '\n' ∉ d.data) (ht : '\n' ∉ t.data) (hb : '\n' ∉ (baselineField b).data)
    (h1 : '\n' ∉ l1.data) (h2 : '\n' ∉ l2.data) (h3 : '\n' ∉ l3.data) :
    linesOfStr (joinLines [logHeader d t b, l1, l2, l3]) =
      ["Date: " ++ d, "Start Time: " ++ t, "Baseline(V): " ++ baselineField b, "",
        "Time(s),Reading(V)", l1, l2, l3] := by
  have hjoin : joinLines [logHeader d t b, l1, l2, l3] =
      ("Date: " ++ d) ++ "\n" ++ (("Start Time: " ++ t) ++ "\n" ++
        (("Baseline(V): " ++ baselineField b) ++ "\n" ++ (("" : String) ++ "\n" ++
          (("Time(s),Reading(V)" : String) ++ "\n" ++
            (l1 ++ "\n" ++ (l2 ++ "\n" ++ l3)))))) := by
    apply String.ext
    simp [joinLines, logHeader, String.data_append]
  rw [hjoin]
  rw [linesOfStr_append _ _ (not_nl_append _ _ (by decide) hd)]
  rw [linesOfStr_append _ _ (not_nl_append _ _ (by decide) ht)]
  rw [linesOfStr_append _ _ (not_nl_append _ _ (by decide) hb)]
  rw [linesOfStr_append _ _ (by decide)]
  rw [linesOfStr_append _ _ (by decide)]
  rw [linesOfStr_append _ _ h1]
  rw [linesOfStr_append _ _ h2]
  rw [linesOfStr_single _ h3]

/-! ## Claims -/

theorem notifyHandler_eq_baseline (s : String) (st : AppState) (p q : ℚ)
    (hdec : decodeReceiver s = some ⟨SampleKind.baseline, p, q⟩) :
    notifyHandler s st =
      { st with Reading := some q, baselineRef := some p, Baseline := some p,
                Value := some (q - p) } := by
  unfold notifyHandler
  rw [hdec]

theorem notifyHandler_eq_reference (s : String) (st : AppState) (p q : ℚ)
    (hdec : decodeReceiver s = some ⟨SampleKind.reference, p, q⟩) :
    notifyHandler s st =
      match st.baselineRef with
      | some b => { st with Reading := some q, Vref := some p, Value := some (q - b) }
      | none => { st with Reading := some q, Vref := some p } := by
  unfold notifyHandler
  rw [hdec]

/-- C1: For every successfully decoded Sample processed by the Value
Deriver in a reachable state of the receiver app: `lastReading`
(`Reading`) is set to `sample.secondary` unconditionally; a `Baseline`
sample sets `baseline` (ref and mirror) to `sample.primary` and its
derived value is computed from that same sample's own baseline in the
same dispatch; a `Reference` sample sets `reference` to `sample.primary`
without altering the baseline; the derived value equals
`lastReading - baseline` whenever a baseline is present, and is absent
otherwise. -/
theorem claim_C1 (ops : List PipeOp) (s : String) (smp : Sample)
    (hdec : decodeReceiver s = some smp) :
    (notifyHandler s (runPipe ops)).Reading = some smp.secondary ∧
    (smp.kind = SampleKind.baseline →
      (notifyHandler s (runPipe ops)).baselineRef = some smp.primary ∧
      (notifyHandler s (runPipe ops)).Baseline = some smp.primary ∧
      (notifyHandler s (runPipe ops)).Value = some (smp.secondary - smp.primary)) ∧
    (smp.kind = SampleKind.reference →
      (notifyHandler s (runPipe ops)).Vref = some smp.primary ∧
      (notifyHandler s (runPipe ops)).baselineRef = (runPipe ops).baselineRef) ∧
    (∀ b, (notifyHandler s (runPipe ops)).baselineRef = some b →
      (notifyHandler s (runPipe ops)).Value = some (smp.secondary - b)) ∧
    ((notifyHandler s (runPipe ops)).baselineRef = none →
      (notifyHandler s (runPipe ops)).Value = none) := by
  have hinv := runPipe_valueInv ops
  obtain ⟨k, p, q⟩ := smp
  cases k with
  | baseline =>
    rw [notifyHandler_eq_baseline s (runPipe ops) p q hdec]
    refine ⟨rfl, fun _ => ⟨rfl, rfl, rfl⟩, fun hk => by simp at hk, ?_, ?_⟩
    · intro b hb
      have hb' : some p = some b := hb
      have hpb : p = b := Option.some.inj hb'
      subst hpb
      rfl
    · intro hb
      exact absurd hb (by simp)
  | reference =>
    rw [notifyHandler_eq_reference s (runPipe ops) p q hdec]
    cases hbase : (runPipe ops).baselineRef with
    | some b0 =>
      refine ⟨rfl, fun hk => by simp at hk, fun _ => ⟨rfl, rfl⟩, ?_, ?_⟩
      · intro b hb
        have hb' : some b0 = some b := hb
        have : b0 = b := Option.some.inj hb'
        subst this
        rfl
      · intro hb
        exact absurd hb (by simp)
    | none =>
      refine ⟨rfl, fun hk => by simp at hk, fun _ => ⟨rfl, rfl⟩, ?_, ?_⟩
      · intro b hb
        exact absurd hb (by simp)
      · intro _
        have hv : (runPipe ops).Value = none := by
          cases hv : (runPipe ops).Value with
          | none => rfl
          | some v =>
            have hs := hinv (by rw [hv]; rfl)
            rw [hbase] at hs
            simp at hs
        exact hv

/-- C1 witness: decoding `B1.000000,1.005000` from the initial state
sets the reading, the baseline and the derived value from that same
sample. -/
theorem claim_C1_witness :
    (notifyHandler "B1.000000,1.005000" (runPipe [])).Reading = some ((201 : ℚ) / 200) ∧
    (notifyHandler "B1.000000,1.005000" (runPipe [])).Value =
      some ((201 : ℚ) / 200 - 1) := by
  have h := claim_C1 [] "B1.000000,1.005000" ⟨SampleKind.baseline, 1, 201 / 200⟩
    (by
      simp +decide [decodeReceiver, decodeReceiverL, isValidFrameL, commaParts,
        splitOnChar, numToken, numToken.numCore, numTail, fracTail, digitsOnly,
        jsParseFloatL, parseAfterSign, readDigits]
      norm_num)
  exact ⟨h.1, (h.2.1 rfl).2.2⟩

/-- C2: in every reachable state of the receiver-app pipeline — after
any sequence of frames (well-formed or not), scan/connect and
disconnect operations — the derived `Value` is present only if the
deriver's baseline store (`baselineRef`) is present. -/
theorem claim_C2 (ops : List PipeOp) (h : (runPipe ops).Value.isSome = true) :
    (runPipe ops).baselineRef.isSome = true :=
  runPipe_valueInv ops h

/-- C2 witness: after scanning, connecting and one baseline frame, the
derived value is present, and so is the baseline. -/
theorem claim_C2_witness :
    (runPipe [PipeOp.start, PipeOp.connect, PipeOp.frame "B1,2"]).baselineRef.isSome =
      true :=
  claim_C2 [PipeOp.start, PipeOp.connect, PipeOp.frame "B1,2"] (by decide)

/-- C3 counterexample: in the scan-list variant (`src/unnamed/part_000`),
the malformed frames are not all dropped — `X1,2` passes the
`parts.length === 2` check and updates `lastReading` to `2`, and
`B1,abc` updates `baseline` to `1` and sets `lastReading` to `NaN`, so
the Calibration State does not stay unchanged. -/
theorem claim_C3_counterexample :
    (processFrame000 none "X1,2" p0Init).Reading ≠ none ∧
    processFrame000 none "X1,2" p0Init ≠ p0Init ∧
    (processFrame000 none "B1,abc" p0Init).Baseline ≠ none ∧
    (processFrame000 none "B1,abc" p0Init).Reading = some JSVal.nan := by
  refine ⟨by decide, by decide, by decide, by decide⟩

/-- C3 (amended): in the receiver app (`src/receiverApp/index.tsx`),
decoding any of the malformed frames `X1,2`, `B1`, `B1,abc` is a decode
failure that is silently dropped — the handler returns before touching
any state, leaving the entire state (so in particular baseline,
reference and lastReading) unchanged, and the pipeline keeps running.
In the `part_000` variant, only `B1` is dropped. -/
theorem claim_C3 (st : AppState) :
    notifyHandler "X1,2" st = st ∧
    notifyHandler "B1" st = st ∧
    notifyHandler "B1,abc" st = st ∧
    processFrame000 none "B1" p0Init = p0Init := by
  refine ⟨?_, ?_, ?_, by decide⟩
  · unfold notifyHandler
    rw [show decodeReceiver "X1,2" = none from by decide]
  · unfold notifyHandler
    rw [show decodeReceiver "B1" = none from by decide]
  · unfold notifyHandler
    rw [show decodeReceiver "B1,abc" = none from by decide]

/-- C4: in the telemetry window of `src/unnamed/part_001` (duration
`MAX_GRAPH_SECONDS = 10` s, timestamps in ms), inserting values at
t = 0 s, 5 s and 11 s and reading the buffer at t = 11 s yields exactly
the points inserted at t = 5 and t = 11, in timestamp order: the insert
appends the new point and evicts every entry with
`now - observedAt ≥ 10000` ms, so the t = 0 point is evicted. -/
theorem claim_C4 (v1 v2 v3 : ℚ) :
    graphInsert v3 11000 (graphInsert v2 5000 (graphInsert v1 0 [])) =
      [{ x := v2, y := 5, timestamp := 5000 }, { x := v3, y := 11, timestamp := 11000 }] ∧
    (graphInsert v3 11000 (graphInsert v2 5000 (graphInsert v1 0 []))).map
        GraphPoint.timestamp = [5000, 11000] ∧
    List.Chain' (fun a b => a ≤ b)
      ((graphInsert v3 11000 (graphInsert v2 5000 (graphInsert v1 0 []))).map
        GraphPoint.timestamp) := by
  have h1 : graphInsert v1 0 [] = [{ x := v1, y := 0, timestamp := 0 }] := by
    unfold graphInsert
    norm_num [MAX_GRAPH_SECONDS]
  have h2 : graphInsert v2 5000 [{ x := v1, y := 0, timestamp := 0 }] =
      [{ x := v1, y := 0, timestamp := 0 }, { x := v2, y := 5, timestamp := 5000 }] := by
    unfold graphInsert
    norm_num [MAX_GRAPH_SECONDS, List.filter]
  have h3 : graphInsert v3 11000
      [{ x := v1, y := 0, timestamp := 0 }, { x := v2, y := 5, timestamp := 5000 }] =
      [{ x := v2, y := 5, timestamp := 5000 }, { x := v3, y := 11, timestamp := 11000 }] := by
    unfold graphInsert
    norm_num [MAX_GRAPH_SECONDS, List.filter]
  rw [h1, h2, h3]
  refine ⟨rfl, rfl, ?_⟩
  simp

/-- C5 counterexample: `startSession()` immediately followed by
`stopSession()` with zero recorded samples does perform an export — the
header-only buffer is written to the sink — and the reported message is
`CSV file saved`, not `nothing logged`. -/
theorem claim_C5_counterexample :
    (stopLogging (startLogging 0 "01-01-2026" "10:00:00" none loggerInit)).written ≠
      none ∧
    (stopLogging (startLogging 0 "01-01-2026" "10:00:00" none loggerInit)).message ≠
      "nothing logged" ∧
    (stopLogging (startLogging 0 "01-01-2026" "10:00:00" none loggerInit)).written =
      some (logHeader "01-01-2026" "10:00:00" none) := by
  refine ⟨by decide, by decide, rfl⟩

/-- C5 (amended): calling `startLogging` and then immediately
`stopLogging` with zero recorded samples (row buffer holding only the
header row) still performs an export: the header-only content is
written and the reported message is `CSV file saved`; the code has no
nothing-logged check. -/
theorem claim_C5 (now : ℤ) (dateStr timeStr : String) (b : Option ℚ) :
    (stopLogging (startLogging now dateStr timeStr b loggerInit)).written =
      some (logHeader dateStr timeStr b) ∧
    (stopLogging (startLogging now dateStr timeStr b loggerInit)).message =
      "CSV file saved" ∧
    (startLogging now dateStr timeStr b loggerInit).logEntries =
      [logHeader dateStr timeStr b] ∧
    (stopLogging (startLogging now dateStr timeStr b loggerInit)).state.isLogging =
      false :=
  ⟨rfl, rfl, rfl, rfl⟩

/-- C6 counterexample: in the first receiver-app variant, a link-level
disconnect from a reachable Connected state runs `disconnect()`
(lines 122-125 and 175-195), which resets the scan counter but leaves
the manager idle — `connecting` is false and no scan timer runs, so the
manager does not transition back to Scanning. -/
theorem claim_C6_counterexample :
    (runPipe [PipeOp.start, PipeOp.connect]).connectedDevice = true ∧
    (runPipe [PipeOp.start, PipeOp.connect, PipeOp.linkDisconnect]).connecting = false ∧
    (runPipe [PipeOp.start, PipeOp.connect, PipeOp.linkDisconnect]).scanTimerActive =
      false ∧
    (runPipe [PipeOp.start, PipeOp.connect, PipeOp.linkDisconnect]).scanTime = 0 := by
  refine ⟨by decide, by decide, by decide, by decide⟩

/-- C6 (amended): a link-level disconnect while Connected invokes the
disconnect routine. In the first receiver-app variant this resets the
scan-duration counter to 0 and clears the link, but returns the manager
to Idle (not Scanning): scanning resumes only through an explicit
Connect/Retry. In the second variant (`src/receiverApp/index.tsx:418-433`)
`disconnect()` automatically restarts scanning without any external
call — but that variant has no scan-duration counter. -/
theorem claim_C6 :
    (∀ st : AppState, st.connectedDevice = true →
      (pipeStep st PipeOp.linkDisconnect).scanTime = 0 ∧
      (pipeStep st PipeOp.linkDisconnect).connecting = false ∧
      (pipeStep st PipeOp.linkDisconnect).connectedDevice = false ∧
      (pipeStep st PipeOp.linkDisconnect).scanTimerActive = false) ∧
    (∀ st2 : App2State, (app2Disconnect st2).connecting = true ∧
      (app2Disconnect st2).scanActive = true) := by
  constructor
  · intro st hc
    simp only [pipeStep, if_pos hc]
    exact ⟨rfl, rfl, rfl, rfl⟩
  · intro st2
    unfold app2Disconnect
    exact ⟨rfl, rfl⟩

/-- C6 witness: from the reachable Connected state, the link-disconnect
event zeroes the scan counter. -/
theorem claim_C6_witness :
    (pipeStep (runPipe [PipeOp.start, PipeOp.connect]) PipeOp.linkDisconnect).scanTime =
      0 :=
  (claim_C6.1 (runPipe [PipeOp.start, PipeOp.connect]) (by decide)).1

/-- C7 counterexample: the part_001 decoder accepts `B,1.000000,1.005000`,
a frame with a separating comma after the tag, which does not match the
claimed wire grammar — so "the Protocol Decoder accepts exactly the
frames matching `^[BV](-?\d+(\.\d+)?),(-?\d+(\.\d+)?)$`" fails on that
variant. -/
theorem claim_C7_counterexample :
    (decode001 "B,1.000000,1.005000").isSome = true ∧
    ¬ MatchesWireGrammar "B,1.000000,1.005000" := by
  refine ⟨by decide, fun h => ?_⟩
  have hs := (decodeReceiver_isSome_iff_grammar "B,1.000000,1.005000").mpr h
  have hf : (decodeReceiver "B,1.000000,1.005000").isSome = false := by decide
  rw [hf] at hs
  simp at hs

/-- C7 (amended): the receiver-app Protocol Decoder
(`src/receiverApp/index.tsx:149-157`) accepts exactly the frames of the
wire grammar `^[BV](-?\d+(\.\d+)?),(-?\d+(\.\d+)?)$` — tag immediately
followed by the first number, no separating comma — and every other
string is a decode failure. The part_001 variant instead requires a
comma after the tag: it rejects `B1.000000,1.005000` and accepts the
comma form. -/
theorem claim_C7 :
    (∀ s, (decodeReceiver s).isSome = true ↔ MatchesWireGrammar s) ∧
    decode001 "B1.000000,1.005000" = none ∧
    (decode001 "B,1.000000,1.005000").isSome = true :=
  ⟨decodeReceiver_isSome_iff_grammar, by decide, by decide⟩

/-- C7 witness: `B1,2` is accepted by the receiver-app decoder, hence
matches the wire grammar. -/
theorem claim_C7_witness : MatchesWireGrammar "B1,2" :=
  (claim_C7.1 "B1,2").mp (by decide)

/-- A session of the part_001 logger: `startLogging` at time `t0`, three
samples recorded at times `n1, n2, n3`. -/
def c8Run (t0 n1 n2 n3 : ℤ) (v1 v2 v3 : ℚ) : LoggerState :=
  logRecord n3 v3 (logRecord n2 v2 (logRecord n1 v1
    (startLogging t0 "01-01-2026" "12:00:00" none loggerInit)))

theorem c8Run_logEntries (t0 n1 n2 n3 : ℤ) (v1 v2 v3 : ℚ) :
    (c8Run t0 n1 n2 n3 v1 v2 v3).logEntries =
      [logHeader "01-01-2026" "12:00:00" none, dataLine (n1 - t0) v1,
        dataLine (n2 - t0) v2, dataLine (n3 - t0) v3] := by
  simp [c8Run, logRecord, startLogging, loggerInit]

theorem c8Run_lines (t0 n1 n2 n3 : ℤ) (v1 v2 v3 : ℚ) :
    linesOfStr (joinLines (c8Run t0 n1 n2 n3 v1 v2 v3).logEntries) =
      ["Date: 01-01-2026", "Start Time: 12:00:00", "Baseline(V): Unknown", "",
        "Time(s),Reading(V)", dataLine (n1 - t0) v1, dataLine (n2 - t0) v2,
        dataLine (n3 - t0) v3] := by
  rw [c8Run_logEntries]
  have h := linesOf_logFile "01-01-2026" "12:00:00" none (dataLine (n1 - t0) v1)
    (dataLine (n2 - t0) v2) (dataLine (n3 - t0) v3) (by decide) (by decide) (by decide)
    (dataLine_data_not_nl _ _) (dataLine_data_not_nl _ _) (dataLine_data_not_nl _ _)
  rw [h]
  rfl

/-- C8 counterexample: the exported file of a three-sample session has
`Time(s),Reading(V)` as its fifth line and `Date: <date>` as its first —
not the claimed five-column header `Time (s),Baseline (V),Vref (V),Reading (V),Value (V)`
nor the claimed comma-style `Date,<date>`. -/
theorem claim_C8_counterexample :
    (linesOfStr (joinLines (c8Run 0 1000 2000 3000 1 2 3).logEntries)).get? 4 =
      some "Time(s),Reading(V)" ∧
    "Time(s),Reading(V)" ≠ "Time (s),Baseline (V),Vref (V),Reading (V),Value (V)" ∧
    (linesOfStr (joinLines (c8Run 0 1000 2000 3000 1 2 3).logEntries)).get? 0 =
      some "Date: 01-01-2026" ∧
    "Date: 01-01-2026" ≠ "Date,01-01-2026" := by
  refine ⟨?_, by decide, ?_, by decide⟩
  · rw [c8Run_lines]
    rfl
  · rw [c8Run_lines]
    rfl

/-- C8 (amended): for a session in which three derived samples are
recorded between `startLogging` and `stopLogging` at non-decreasing
times not earlier than the session start, the exported file consists of
exactly 5 header lines — line 1 `Date: <date>`, line 2
`Start Time: <time>`, line 3 `Baseline(V): <value-or-Unknown>`, line 4
blank, line 5 the two-column header `Time(s),Reading(V)` — followed by
3 comma-separated data lines `<offsetSeconds>,<value>`, one per
recorded sample, with the rendered offsets non-decreasing and the first
one ≥ 0. -/
theorem claim_C8 (t0 n1 n2 n3 : ℤ) (v1 v2 v3 : ℚ)
    (h01 : t0 ≤ n1) (h12 : n1 ≤ n2) (h23 : n2 ≤ n3) :
    (stopLogging (c8Run t0 n1 n2 n3 v1 v2 v3)).written =
      some (joinLines (c8Run t0 n1 n2 n3 v1 v2 v3).logEntries) ∧
    linesOfStr (joinLines (c8Run t0 n1 n2 n3 v1 v2 v3).logEntries) =
      ["Date: 01-01-2026", "Start Time: 12:00:00", "Baseline(V): Unknown", "",
        "Time(s),Reading(V)", dataLine (n1 - t0) v1, dataLine (n2 - t0) v2,
        dataLine (n3 - t0) v3] ∧
    0 ≤ n1 - t0 ∧ n1 - t0 ≤ n2 - t0 ∧ n2 - t0 ≤ n3 - t0 :=
  ⟨rfl, c8Run_lines t0 n1 n2 n3 v1 v2 v3, by omega, by omega, by omega⟩

/-- C8 witness: the session started at 0 ms with records at 1000, 2000
and 3000 ms exports the 5 header lines followed by the 3 data lines. -/
theorem claim_C8_witness :
    linesOfStr (joinLines (c8Run 0 1000 2000 3000 1 2 3).logEntries) =
      ["Date: 01-01-2026", "Start Time: 12:00:00", "Baseline(V): Unknown", "",
        "Time(s),Reading(V)", dataLine (1000 - 0) 1, dataLine (2000 - 0) 2,
        dataLine (3000 - 0) 3] :=
  (claim_C8 0 1000 2000 3000 1 2 3 (by decide) (by decide) (by decide)).2.1

theorem repInsert_timestamps (n : ℕ) : ∀ p ∈ repInsert n, p.timestamp = 0 := by
  induction n with
  | zero => intro p hp; simp [repInsert] at hp
  | succ n ih =>
    intro p hp
    simp only [repInsert] at hp
    unfold graphInsert at hp
    rcases List.mem_append.mp hp with h | h
    · exact ih p (List.mem_of_mem_filter h)
    · have := List.mem_singleton.mp h
      rw [this]

theorem repInsert_length (n : ℕ) : (repInsert n).length = n := by
  induction n with
  | zero => rfl
  | succ n ih =>
    simp only [repInsert]
    unfold graphInsert
    rw [List.length_append, List.filter_eq_self.mpr ?_]
    · rw [ih]
      rfl
    · intro p hp
      have ht := repInsert_timestamps n p hp
      simp [ht, MAX_GRAPH_SECONDS]

/-- C9 counterexample: 101 inserts within the 10-second window leave 101
points in the buffer — there is no `maxPoints` truncation, so the point
count is not bounded by 100. -/
theorem claim_C9_counterexample :
    (repInsert 101).length = 101 ∧ ¬ (repInsert 101).length ≤ 100 := by
  refine ⟨repInsert_length 101, ?_⟩
  rw [repInsert_length 101]
  omega

/-- C9 (amended): after every insert into the telemetry window, every
retained entry satisfies `now - observedAt < 10000` ms (time-based
eviction does run on every insert), and one insert grows the buffer by
at most one point — but there is no maximum-count truncation, so the
point count is bounded only by the arrival rate within the window
duration, not by 100. -/
theorem claim_C9 (v : ℚ) (now : ℤ) (data : List GraphPoint) (p : GraphPoint)
    (hp : p ∈ graphInsert v now data) :
    now - p.timestamp < 10000 ∧ (graphInsert v now data).length ≤ data.length + 1 := by
  constructor
  · unfold graphInsert at hp
    rcases List.mem_append.mp hp with h | h
    · have := List.of_mem_filter h
      simpa [MAX_GRAPH_SECONDS] using this
    · have := List.mem_singleton.mp h
      rw [this]
      show now - now < 10000
      omega
  · unfold graphInsert
    rw [List.length_append]
    have := List.length_filter_le
      (fun d => decide (now - d.timestamp < MAX_GRAPH_SECONDS * 1000)) data
    simpa using this

/-- C9 witness: the single point of a first insert is within the window
and the buffer grew by one. -/
theorem claim_C9_witness :
    (0 : ℤ) - ({ x := 1, y := 0, timestamp := 0 } : GraphPoint).timestamp < 10000 ∧
    (graphInsert 1 0 []).length ≤ ([] : List GraphPoint).length + 1 :=
  claim_C9 1 0 [] { x := 1, y := 0, timestamp := 0 }
    (by simp [graphInsert])

/-- C10: in the scan-list variant (`src/unnamed/part_000`), every
`startScan()` schedules an unconditional stop 10000 ms after the scan
starts: discovery callbacks — matching or not — never stop the scan or
cancel the timeout, and when the scheduled timeout fires the scan is
stopped, so discovery never runs longer than 10 seconds per
`startScan()` call. -/
theorem claim_C10 (evs : List (String × String)) :
    (runScanFound evs).scanning = true ∧
    (scanStep (runScanFound evs) ScanEvent.timeoutFire).scanning = false ∧
    startScanState.stopAfterMs = 10000 := by
  have hpres : ∀ (l : List (String × String)) (st : ScanState), st.scanning = true →
      (List.foldl scanStep st (l.map fun e => ScanEvent.found e.1 e.2)).scanning = true := by
    intro l
    induction l with
    | nil => intro st h; exact h
    | cons e l ih =>
      intro st h
      simp only [List.map_cons, List.foldl_cons]
      apply ih
      simp only [scanStep]
      rw [if_pos h]
      by_cases h2 : e.1 = TARGET_NAME
      · rw [if_pos h2]
        by_cases h3 : st.deviceIds.contains e.2
        · rw [if_pos h3]; exact h
        · rw [if_neg h3]; exact h
      · rw [if_neg h2]; exact h
  exact ⟨hpres evs startScanState rfl, rfl, rfl⟩
